import Mathlib

/-!
# Verification of the kapuchin monkey-patching engine

Shallow embedding of `src/extras/kapuchin_monkey.py` (a Python-3 inlined
adaptation of the `gorilla` monkey-patching library) and proofs about it.

The engine stores its bookkeeping directly in the destination's attribute
table under formatted names:

* the patched member itself, under `patch.name`;
* `_monkey_created_{name}`   — flag: the member did not exist before apply;
* `_monkey_ids_{name}`       — tuple of tags, one per stored original;
* `_monkey_item_{name}_{i}`  — the i-th stored original value.

We model the attribute table of one destination as an association list keyed
by an inductive `Key` mirroring those formatted names (the formatted strings
are pairwise distinct for any fixed member name, so the inductive encoding is
faithful for single-slot programs).  `__name__` is modelled as its own key
because `revert`'s and `get_original_attribute`'s error paths format
`destination.__name__` into their messages — an access that itself raises
`AttributeError` when the destination (e.g. a plain instance) has no
`__name__`.
-/

namespace Kapuchin

/-- Python exception classes relevant to the engine: `AttributeError`
(the spec's NotFound), `RuntimeError` (the spec's Revert error) and
`TypeError`. -/
inductive Err where
  | notFound : Err
  | revertErr : Err
  | typeErr : Err
deriving DecidableEq, Repr

/-- Values stored in a destination's attribute table.  `vids` models the
tuple of tag strings kept under `_monkey_ids_{name}`. -/
inductive PyVal where
  | vbool : Bool → PyVal
  | vint : Int → PyVal
  | vstr : String → PyVal
  | vids : List String → PyVal
deriving DecidableEq, Repr

/-- Attribute names used by the engine on a destination, for one or more
member names `n`: the member itself, `_monkey_created_{n}`,
`_monkey_ids_{n}`, `_monkey_item_{n}_{i}`, and `__name__`. -/
inductive Key where
  | member : String → Key
  | created : String → Key
  | ids : String → Key
  | item : String → Nat → Key
  | dunderName : Key
deriving DecidableEq, Repr

/-- A destination's attribute table (`setattr`/`getattr`/`delattr` state). -/
abbrev Attrs := List (Key × PyVal)

/-- `getattr(dest, k)` returning `none` instead of raising. -/
def getattr? : Attrs → Key → Option PyVal
  | [], _ => none
  | p :: ps, k => if p.1 = k then some p.2 else getattr? ps k

/-- `delattr(dest, k)` (callers guard against the member being absent). -/
def delattr : Attrs → Key → Attrs
  | [], _ => []
  | p :: ps, k => if p.1 = k then delattr ps k else p :: delattr ps k

/-- `setattr(dest, k, v)`: replace any existing binding of `k`. -/
def setattr (d : Attrs) (k : Key) (v : PyVal) : Attrs :=
  (k, v) :: delattr d k

/-- Python truthiness of the values we store. -/
def truthy : PyVal → Bool
  | .vbool b => b
  | .vint n => n ≠ 0
  | .vstr s => s ≠ ""
  | .vids l => ¬ l.isEmpty

/-- `getattr(dest, k, default)`. -/
def getattrD (d : Attrs) (k : Key) (v : PyVal) : PyVal :=
  (getattr? d k).getD v

/-- The tuple read by `getattr(destination, '_monkey_ids_{n}', ())`.
The engine only ever stores `vids` tuples under this key; a non-tuple value
there would make the Python code raise `TypeError` on `ids += (id,)`, and our
theorems restrict to states whose ids slot is absent or a tuple
(`IdsOk`). -/
def idsOf (d : Attrs) (n : String) : List String :=
  match getattr? d (.ids n) with
  | some (.vids l) => l
  | _ => []

/-- The ids slot of `n` holds a tuple if it is present at all. -/
def IdsOk (d : Attrs) (n : String) : Prop :=
  getattr? d (.ids n) = none ∨ ∃ l, getattr? d (.ids n) = some (.vids l)

/-- `apply(patch, id)` from kapuchin_monkey.py (lines 141–167), for one slot
`(destination, n)` with replacement `obj` and tag `id`:

```
try:    target = get_attribute(patch.destination, patch.name)
except AttributeError:
    setattr(patch.destination, '_monkey_created_{name}', True)
else:
    ids = getattr(patch.destination, '_monkey_ids_{name}', ())
    setattr(patch.destination, '_monkey_item_{name}_{len(ids)}', target)
    setattr(patch.destination, '_monkey_ids_{name}', ids + (id,))
setattr(patch.destination, patch.name, patch.obj)
```

For an instance destination `get_attribute` is a raw attribute read, modelled
by `getattr?` on the table. -/
def apply (d : Attrs) (n : String) (obj : PyVal) (id : String) : Attrs :=
  match getattr? d (.member n) with
  | none =>
      setattr (setattr d (.created n) (.vbool true)) (.member n) obj
  | some target =>
      let l := idsOf d n
      let d1 := setattr d (.item n l.length) target
      let d2 := setattr d1 (.ids n) (.vids (l ++ [id]))
      setattr d2 (.member n) obj

/-- The error raised by `revert`'s failure path
`raise RuntimeError("...".format(patch.destination.__name__))`: when the
destination lacks `__name__` (a plain instance), evaluating
`patch.destination.__name__` raises `AttributeError` before the
`RuntimeError` is constructed, so the caller sees `AttributeError`. -/
def revertFailErr (d : Attrs) : Err :=
  if (getattr? d .dunderName).isSome then .revertErr else .notFound

/-- `revert(patch)` from kapuchin_monkey.py (lines 170–195):

```
if getattr(patch.destination, '_monkey_created_{name}', False):
    delattr(patch.destination, patch.name)   # AttributeError if absent
    return
try:
    ids = getattr(patch.destination, '_monkey_ids_{name}')
    if not ids: raise AttributeError
except AttributeError:
    raise RuntimeError("...".format(patch.destination.__name__))
attr = getattr(patch.destination, '_monkey_item_{name}_{len(ids)-1}')
setattr(patch.destination, patch.name, attr)
delattr(patch.destination, '_monkey_item_{name}_{len(ids)-1}')
setattr(patch.destination, '_monkey_ids_{name}', ids[:-1])
```

Note the code does NOT clear `_monkey_created_{name}` in the created branch.
A non-tuple value in the ids slot is truthiness-tested by `if not ids`; if
truthy, the subsequent `len(ids)` raises `TypeError` (modelled `.typeErr`,
unreachable from engine-produced states). -/
def revert (d : Attrs) (n : String) : Except Err Attrs :=
  if truthy (getattrD d (.created n) (.vbool false)) then
    match getattr? d (.member n) with
    | none => .error .notFound
    | some _ => .ok (delattr d (.member n))
  else
    match getattr? d (.ids n) with
    | none => .error (revertFailErr d)
    | some (.vids l) =>
        if l.isEmpty then .error (revertFailErr d)
        else
          match getattr? d (.item n (l.length - 1)) with
          | none => .error .notFound
          | some attr =>
              let d1 := setattr d (.member n) attr
              let d2 := delattr d1 (.item n (l.length - 1))
              .ok (setattr d2 (.ids n) (.vids l.dropLast))
    | some v => if truthy v then .error .typeErr else .error (revertFailErr d)

/-- `get_original_attribute(obj, name, id)` from kapuchin_monkey.py
(lines 333–351): read the ids tuple (raising `AttributeError` when absent or
empty), then scan `reversed(tuple(enumerate(ids)))` for the first index whose
tag equals `id` and return the stored item there; raise `AttributeError` when
no tag matches.  All failure paths raise `AttributeError` (the empty/absent
path formats `obj.__name__`, whose own failure is also an
`AttributeError`). -/
def get_original_attribute (d : Attrs) (n : String) (id : String) :
    Except Err PyVal :=
  match getattr? d (.ids n) with
  | some (.vids l) =>
      if l.isEmpty then .error .notFound
      else
        match ((List.range l.length).filter (fun i => l.getD i "" = id)).getLast? with
        | some i =>
            match getattr? d (.item n i) with
            | some v => .ok v
            | none => .error .notFound
        | none => .error .notFound
  | some v => if truthy v then .error .typeErr else .error .notFound
  | none => .error .notFound

/-- `get_attribute` (lines 321–330) restricted to an instance destination:
`object.__getattribute__(obj, name)`, a raw read of the attribute table,
raising `AttributeError` when absent.  No side effects. -/
def resolve_inst (d : Attrs) (n : String) : Except Err PyVal :=
  match getattr? d (.member n) with
  | some v => .ok v
  | none => .error .notFound

/-- A sequence of `apply` calls on the one slot `n`, each with a replacement
value and a tag, first element applied first. -/
def applySeq (d : Attrs) (n : String) : List (PyVal × String) → Attrs
  | [] => d
  | p :: ps => applySeq (apply d n p.1 p.2) n ps

/-- `k` successive `revert` calls on slot `n`, stopping at the first
failure (a raised exception propagates to the caller). -/
def revertSeq (d : Attrs) (n : String) : Nat → Except Err Attrs
  | 0 => .ok d
  | k + 1 => (revert d n).bind (fun d' => revertSeq d' n k)

/-- An engine call against one slot: an `apply` with replacement value and
tag, or a `revert`. -/
inductive Op where
  | app : PyVal → String → Op
  | rev : Op

/-- One engine call on slot `n` of destination `d`. -/
def step (d : Attrs) (n : String) : Op → Except Err Attrs
  | .app v t => .ok (apply d n v t)
  | .rev => revert d n

/-- Run a sequence of apply/revert calls on slot `n`; a raised exception
aborts the sequence.  The states reachable by apply/revert sequences from
`d` are exactly the `.ok` results of `runOps` on prefixes. -/
def runOps (d : Attrs) (n : String) : List Op → Except Err Attrs
  | [] => .ok d
  | op :: ops => (step d n op).bind (fun d' => runOps d' n ops)

/-!
## Object model for the patch builder, resolver and discovery

`create_patches`, `find_patches`, `get_attribute`, `_get_base` and
`_get_members` traverse Python objects: plain callables/values, modules
(with `pkgutil`-enumerable children), classes (with a linearized MRO), and
instances.  `cls` carries its MRO directly, most-derived first, each layer
being `(isRoot, own __dict__)` where `isRoot` marks the two universal root
bases `type`/`object` that `_get_members` excludes (but `get_attribute`
does not).  `wrapper` stands for the bound-method / `property` /
`classmethod` / `staticmethod` wrappers that `_get_base` unwraps.
Dictionaries are insertion-ordered association lists, as in Python 3. -/
inductive PyObj where
  | leaf : Nat → PyObj
  | module : List (String × PyObj) → List (Bool × PyObj) → PyObj
  | cls : List (Bool × List (String × PyObj)) → PyObj
  | inst : List (String × PyObj) → PyObj
  | wrapper : PyObj → PyObj

/-- Insertion-ordered dict lookup (Python dict keys are unique; lookup
returns the binding in the stored order). -/
def alookup : List (String × PyObj) → String → Option PyObj
  | [], _ => none
  | p :: ps, n => if p.1 = n then some p.2 else alookup ps n

/-- `isinstance(obj, types.ModuleType)`. -/
def isModule : PyObj → Bool
  | .module _ _ => true
  | _ => false

/-- `isinstance(obj, _CLASS_TYPES)`. -/
def isClass : PyObj → Bool
  | .cls _ => true
  | _ => false

/-- `name.startswith('_')`: the name's first character is an
underscore. -/
def startsWithUnderscore (n : String) : Bool :=
  match n.data with
  | [] => false
  | c :: _ => c = '_'

/-- `default_filter(name, obj)` (lines 65–73): filters out module
attributes and names starting with an underscore. -/
def default_filter (n : String) (obj : PyObj) : Bool :=
  !(isModule obj || startsWithUnderscore n)

/-- Python's `str` comparison: lexicographic by code point over the
character sequences. -/
def charListLe : List Char → List Char → Bool
  | [], _ => true
  | _ :: _, [] => false
  | a :: as, b :: bs =>
      if a.toNat < b.toNat then true
      else if b.toNat < a.toNat then false
      else charListLe as bs

/-- `a <= b` on Python strings. -/
def strLe (a b : String) : Bool :=
  charListLe a.data b.data

/-- The `filter=None → _true` replacement (line 447–449). -/
def trueFilter (_ : String) (_ : PyObj) : Bool := true

/-- `_get_base(obj)` (lines 371–382): unwrap decorator wrappers down to the
underlying callable; other objects are returned unchanged. -/
def get_base : PyObj → PyObj
  | .wrapper o => get_base o
  | o => o

/-- Scan a class's linearized ancestor list for the first layer whose own
`__dict__` stores `name` (the loop body of `get_attribute`). -/
def mroLookup : List (Bool × List (String × PyObj)) → String → Option PyObj
  | [], _ => none
  | layer :: rest, n =>
      match alookup layer.2 n with
      | some v => some v
      | none => mroLookup rest n

/-- `get_attribute(obj, name)` (lines 321–330): for a class, walk
`inspect.getmro(obj)` — the FULL linearized order, universal root bases
included — and return the first raw stored definition
(`object.__getattribute__` on each element, bypassing the descriptor
protocol and computed-property logic); otherwise read the object's own
attribute table.  Raises `AttributeError` when absent everywhere.  Pure: no
side effects. -/
def get_attribute (obj : PyObj) (n : String) : Except Err PyObj :=
  match obj with
  | .cls mro =>
      match mroLookup mro n with
      | some v => .ok v
      | none => .error .notFound
  | .module d _ =>
      match alookup d n with
      | some v => .ok v
      | none => .error .notFound
  | .inst d =>
      match alookup d n with
      | some v => .ok v
      | none => .error .notFound
  | _ => .error .notFound

/-- The resolver exactly as §4.1 of the spec words it: searches the
linearized ancestor order most-derived first but EXCLUDING the universal
root bases, failing with NotFound otherwise.  Defined only to compare the
spec's description against `get_attribute` (which performs no such
exclusion). -/
def resolveSpec (mro : List (Bool × List (String × PyObj))) (n : String) :
    Except Err PyObj :=
  match mroLookup (mro.filter (fun L => !L.1)) n with
  | some v => .ok v
  | none => .error .notFound

/-- The `__dict__` read by `getattr(root, '__dict__', {})`: modules and
instances expose their attribute table, a class used directly (the
`traverse_bases=False` branch) its own dict; functions have an (empty, in
this model) `__dict__`. -/
def dictOf : PyObj → List (String × PyObj)
  | .module d _ => d
  | .inst d => d
  | .cls mro => ((mro.headD (true, [])).2)
  | _ => []

/-- The `roots` list of `_get_members` (lines 398–402): with
`traverse_bases` set and a class argument, every MRO layer except the
universal root bases `type`/`object`; otherwise the object itself. -/
def rootsDicts (obj : PyObj) (tb : Bool) : List (List (String × PyObj)) :=
  match obj with
  | .cls mro =>
      if tb then (mro.filter (fun L => !L.1)).map (fun L => L.2)
      else [dictOf obj]
  | _ => [dictOf obj]

/-- The member-collection loop of `_get_members` (lines 404–410) over the
concatenation of the root dicts: keep `(name, value)` when the name is
unseen and accepted by the filter; `seen.add(name)` happens regardless of
acceptance, so a name rejected at a derived layer is not picked up from a
base layer either. -/
def collectPairs (flt : String → PyObj → Bool) (seen : List String) :
    List (String × PyObj) → List (String × PyObj)
  | [] => []
  | (nm, v) :: rest =>
      if !(seen.contains nm) && flt nm v then
        (nm, v) :: collectPairs flt (nm :: seen) rest
      else
        collectPairs flt (nm :: seen) rest

/-- `members = sorted(members)` (line 412): Python stably sorts the
`(name, value)` tuples lexicographically; after the `seen` dedup the names
are unique, so the order is by name alone and the values are never
compared — any comparison sort agrees, and we use insertion sort by
name in Python's code-point order. -/
def sortMembers (ms : List (String × PyObj)) : List (String × PyObj) :=
  ms.insertionSort (fun a b => strLe a.1 b.1 = true)

/-- The while-loop of `_get_members` (lines 394–419) over a FIFO stack.
`fuel` bounds the number of iterations: the Python loop's termination is
not structural (member classes are pushed when `recursive`), and every
theorem below either supplies enough fuel for its input or exposes one
iteration.  Each iteration collects the (sorted, deduplicated) members of
the popped object, pushes its class-valued members when `recursive`, and
appends the members to the output. -/
def get_members_loop (tb : Bool) (flt : String → PyObj → Bool)
    (recursive : Bool) : Nat → List PyObj → List (String × PyObj)
  | 0, _ => []
  | _, [] => []
  | fuel + 1, obj :: stack =>
      let members := sortMembers (collectPairs flt [] (rootsDicts obj tb).flatten)
      let pushed := if recursive then
          (members.filter (fun m => isClass m.2)).map (fun m => m.2)
        else []
      members ++ get_members_loop tb flt recursive fuel (stack ++ pushed)

/-- `_get_members(obj, traverse_bases, filter, recursive)` (lines
385–419).  A `none` filter stands for Python's `filter=None`, replaced by
`_true` at entry. -/
def get_members (obj : PyObj) (tb : Bool)
    (flt : Option (String → PyObj → Bool)) (recursive : Bool) (fuel : Nat) :
    List (String × PyObj) :=
  get_members_loop tb (flt.getD trueFilter) recursive fuel [obj]

/-- A generated patch intent: `Patch(destination, name, obj)` (settings are
ignored by the engine and omitted). -/
structure MPatch where
  destination : PyObj
  name : String
  obj : PyObj

/-- `DecoratorData` (lines 76–93): patches declared through decorators, the
`override` dict (whose possible keys are `destination` and `name`, written
by the `destination()` and `name()` modifier decorators), and the
`filter()` override. -/
structure DecData where
  patches : List MPatch
  overrideDest : Option PyObj
  overrideName : Option String
  filterOverride : Option Bool

/-- `get_decorator_data(obj)` (lines 354–368) against a registry keyed by
unwrapped identity.  The decorators attach data to plain callables (the
`_get_base` result); classes and other objects whose registration the
claims do not exercise carry no data here. -/
def get_decorator_data (dd : Nat → Option DecData) : PyObj → Option DecData
  | .leaf i => dd i
  | _ => none

/-- `patch_obj._update(**decorator_data.override)` (lines 283–284 via
135–138): replace the destination and/or name fields when the override
dict carries them. -/
def applyOverride (data : DecData) (p : MPatch) : MPatch :=
  ⟨data.overrideDest.getD p.destination, data.overrideName.getD p.name,
    p.obj⟩

/-- The per-member body of `create_patches`' loop (lines 271–299), up to
the recursion decision: `none` when the member is filtered out (explicit
`filter()` override wins, otherwise the filter function), else the
produced patch with decorator overrides applied. -/
def processMember (flt : String → PyObj → Bool) (ud : Bool)
    (dd : Nat → Option DecData) (parentDest : PyObj) (nm : String)
    (v : PyObj) : Option MPatch :=
  if ud then
    let data := get_decorator_data dd (get_base v)
    let fo : Option Bool :=
      match data with
      | none => none
      | some dta => dta.filterOverride
    let skip : Bool :=
      match fo with
      | none => !(flt nm v)
      | some b => !b
    if skip then none
    else
      match data with
      | some dta => some (applyOverride dta ⟨parentDest, nm, v⟩)
      | none => some ⟨parentDest, nm, v⟩
  else if flt nm v then some ⟨parentDest, nm, v⟩ else none

/-- One iteration's member processing in `create_patches` (lines 271–299):
produce the (emitted, pushed) patch lists in member order.  A surviving
class-valued member whose (possibly redirected) destination already holds a
class under the (possibly redirected) name is re-queued against that
existing class instead of being emitted. -/
def processMembers (flt : String → PyObj → Bool) (ud : Bool)
    (dd : Nat → Option DecData) (recursive : Bool) (parentDest : PyObj) :
    List (String × PyObj) → List MPatch × List MPatch
  | [] => ([], [])
  | (nm, v) :: rest =>
      let next := processMembers flt ud dd recursive parentDest rest
      match processMember flt ud dd parentDest nm v with
      | none => next
      | some p =>
          if recursive && isClass v then
            match get_attribute p.destination p.name with
            | .ok target =>
                if isClass target then
                  (next.1, ⟨target, p.name, p.obj⟩ :: next.2)
                else (p :: next.1, next.2)
            | .error _ => (p :: next.1, next.2)
          else (p :: next.1, next.2)

/-- The breadth-first loop of `create_patches` (lines 264–301) over a FIFO
stack of parent patches, with `fuel` bounding the iterations.  Each
iteration enumerates the parent's members via `_get_members(obj,
traverse_bases, filter=None, recursive=False)` — a single collection pass,
hence member fuel 1 — and either emits or re-queues each member. -/
def create_patches_loop (tb : Bool) (flt : String → PyObj → Bool)
    (recursive : Bool) (ud : Bool) (dd : Nat → Option DecData) :
    Nat → List MPatch → List MPatch
  | 0, _ => []
  | _, [] => []
  | fuel + 1, parent :: stack =>
      let members := get_members parent.obj tb none false 1
      let pr := processMembers flt ud dd recursive parent.destination members
      pr.1 ++ create_patches_loop tb flt recursive ud dd fuel (stack ++ pr.2)

/-- `create_patches(destination, root, ...)` (lines 258–301): seed the
queue with `Patch(destination, '', root)` and run the loop.  A `none`
filter stands for Python's `filter=None`, replaced by `_true`. -/
def create_patches (destination root : PyObj) (tb : Bool)
    (flt : Option (String → PyObj → Bool)) (recursive : Bool) (ud : Bool)
    (dd : Nat → Option DecData) (fuel : Nat) : List MPatch :=
  create_patches_loop tb (flt.getD trueFilter) recursive ud dd fuel
    [⟨destination, "", root⟩]

/-- The children a package exposes to `pkgutil.iter_modules` (lines
429–435): pairs `(is_package, module)` in enumeration order; non-packages
have no `__path__` and expose nothing. -/
def module_children : PyObj → List (Bool × PyObj)
  | .module _ ch => ch
  | _ => []

/-- The per-package body of `_module_iterator`'s loop (lines 432–444):
yield every non-package child; yield and re-queue every package child when
`recursive`, and skip package children entirely otherwise.  Returns
(yielded, re-queued) in enumeration order. -/
def iterChildren (recursive : Bool) :
    List (Bool × PyObj) → List PyObj × List PyObj
  | [] => ([], [])
  | (isPkg, m) :: rest =>
      let next := iterChildren recursive rest
      if isPkg then
        if recursive then (m :: next.1, m :: next.2) else next
      else (m :: next.1, next.2)

/-- The while-loop of `_module_iterator` (lines 426–444), fuel-bounded. -/
def module_iterator_loop (recursive : Bool) : Nat → List PyObj → List PyObj
  | 0, _ => []
  | _, [] => []
  | fuel + 1, pkg :: stack =>
      let pr := iterChildren recursive (module_children pkg)
      pr.1 ++ module_iterator_loop recursive fuel (stack ++ pr.2)

/-- `_module_iterator(root, recursive)` (lines 422–444): yield the root
itself, then walk its packages breadth-first. -/
def module_iterator (root : PyObj) (recursive : Bool) (fuel : Nat) :
    List PyObj :=
  root :: module_iterator_loop recursive fuel [root]

/-- The per-module harvest of `find_patches` (lines 310–317): enumerate the
module's members via `_get_members(module, filter=None)` — with its default
`recursive=True`, so members of class-valued members are enumerated too —
and append the `patches` list of every member whose unwrapped identity
carries decorator data. -/
def collectModulePatches (dd : Nat → Option DecData) (m : PyObj)
    (membersFuel : Nat) : List MPatch :=
  (get_members m true none true membersFuel).flatMap (fun pr =>
    match get_decorator_data dd (get_base pr.2) with
    | some data => data.patches
    | none => [])

/-- `find_patches(modules, recursive)` (lines 304–318). -/
def find_patches (modules : List PyObj) (recursive : Bool)
    (dd : Nat → Option DecData) (iterFuel membersFuel : Nat) : List MPatch :=
  (modules.flatMap (fun pkg => module_iterator pkg recursive iterFuel)).flatMap
    (fun m => collectModulePatches dd m membersFuel)

/-- Discovery exactly as the claim words it: for every yielded module, only
TOP-LEVEL members are enumerated (no descent into class-valued members).
Defined only to compare the claim's description against `find_patches`. -/
def find_patches_top (modules : List PyObj) (recursive : Bool)
    (dd : Nat → Option DecData) (iterFuel : Nat) : List MPatch :=
  (modules.flatMap (fun pkg => module_iterator pkg recursive iterFuel)).flatMap
    (fun m => (get_members m true none false 1).flatMap (fun pr =>
      match get_decorator_data dd (get_base pr.2) with
      | some data => data.patches
      | none => []))

/-- The most-derived definition of `n` among the non-root layers of a
linearized ancestry: the first binding in the concatenation of their dicts
in MRO order (most-derived first). -/
def mostDerivedDef (mro : List (Bool × List (String × PyObj)))
    (n : String) : Option PyObj :=
  alookup ((mro.filter (fun L => !L.1)).map (fun L => L.2)).flatten n

/-!
## Hash model for `Patch.__hash__`

`Patch.__hash__` (lines 123–124) is `hash(sorted(_iteritems(self.__dict__)))`.
We model the relevant fragment of Python values and `hash()`: ints and
strings are hashable, a tuple is hashable iff all its elements are, and a
`list` is unhashable — `hash` on it raises `TypeError` (modelled as
`none`).  The combining function for tuples is irrelevant to the claims. -/
inductive HVal where
  | hint : Int → HVal
  | hstr : String → HVal
  | htuple : List HVal → HVal
  | hlist : List HVal → HVal

mutual

/-- Python `hash()` on the modelled values; `none` is `TypeError`. -/
def pyHash : HVal → Option Int
  | .hint i => some i
  | .hstr s => some (s.length : Int)
  | .htuple l =>
      (pyHashList l).map (fun hs => hs.foldl (fun a b => a * 31 + b) 7)
  | .hlist _ => none

/-- `hash()` of every element of a tuple, failing if any element fails. -/
def pyHashList : List HVal → Option (List Int)
  | [] => some []
  | h :: t =>
      match pyHash h, pyHashList t with
      | some a, some b => some (a :: b)
      | _, _ => none

end

/-- `sorted(_iteritems(self.__dict__))`: sort the `(key, value)` tuples;
the four attribute keys are distinct strings, so only keys are compared,
and the result is a Python *list* of tuples. -/
def sortItems (items : List (String × HVal)) : List (String × HVal) :=
  items.insertionSort (fun a b => strLe a.1 b.1 = true)

/-- `Patch.__hash__` (lines 123–124): `hash(sorted(_iteritems(self.__dict__)))`
where `self.__dict__` holds `destination`, `name`, `obj`, `settings` in
insertion order (lines 111–115).  `sorted` returns a list, and `hash` of a
list raises `TypeError`. -/
def patchHash (dest namev obj settings : HVal) : Option Int :=
  pyHash (.hlist ((sortItems
    [("destination", dest), ("name", namev), ("obj", obj),
      ("settings", settings)]).map
    (fun p => .htuple [.hstr p.1, p.2])))

end Kapuchin

namespace Kapuchin

theorem getattr?_delattr_same (d : Attrs) (k : Key) :
    getattr? (delattr d k) k = none := by
  induction d with
  | nil => rfl
  | cons p ps ih =>
      by_cases hp : p.1 = k
      · simpa [delattr, hp] using ih
      · simpa [delattr, getattr?, hp] using ih

theorem getattr?_delattr_ne (d : Attrs) (k k' : Key) (h : k' ≠ k) :
    getattr? (delattr d k) k' = getattr? d k' := by
  induction d with
  | nil => rfl
  | cons p ps ih =>
      have hkk' : k ≠ k' := fun e => h e.symm
      by_cases hp : p.1 = k
      · simpa [delattr, getattr?, hp, hkk'] using ih
      · by_cases hk' : p.1 = k'
        · simp [delattr, getattr?, hp, hk', h]
        · simpa [delattr, getattr?, hp, hk'] using ih

theorem getattr?_setattr_same (d : Attrs) (k : Key) (v : PyVal) :
    getattr? (setattr d k v) k = some v := by
  simp [getattr?, setattr]

theorem getattr?_setattr_ne (d : Attrs) (k k' : Key) (v : PyVal)
    (h : k' ≠ k) : getattr? (setattr d k v) k' = getattr? d k' := by
  have hne : k ≠ k' := fun e => h e.symm
  simp [getattr?, setattr, hne, getattr?_delattr_ne d k k' h]

/-- `apply` on a slot whose member is absent: set the created flag, then
write the replacement. -/
theorem apply_absent (d : Attrs) (n : String) (v : PyVal) (t : String)
    (h : getattr? d (.member n) = none) :
    apply d n v t =
      setattr (setattr d (.created n) (.vbool true)) (.member n) v := by
  simp [apply, h]

/-- `apply` on a slot whose member is present: store the original under the
next item index, extend the ids tuple with the tag, then write the
replacement. -/
theorem apply_present (d : Attrs) (n : String) (v : PyVal) (t : String)
    (target : PyVal) (h : getattr? d (.member n) = some target) :
    apply d n v t =
      setattr
        (setattr (setattr d (.item n (idsOf d n).length) target)
          (.ids n) (.vids (idsOf d n ++ [t])))
        (.member n) v := by
  simp [apply, h]

theorem flag_apply_present (d : Attrs) (n : String) (v : PyVal) (t : String)
    (target : PyVal) (h : getattr? d (.member n) = some target) :
    getattr? (apply d n v t) (.created n) = getattr? d (.created n) := by
  rw [apply_present d n v t target h]
  rw [getattr?_setattr_ne _ _ _ _ (by intro e; cases e)]
  rw [getattr?_setattr_ne _ _ _ _ (by intro e; cases e)]
  rw [getattr?_setattr_ne _ _ _ _ (by intro e; cases e)]

theorem member_apply (d : Attrs) (n : String) (v : PyVal) (t : String) :
    getattr? (apply d n v t) (.member n) = some v := by
  unfold apply
  cases h : getattr? d (.member n) with
  | none => exact getattr?_setattr_same _ _ _
  | some target => exact getattr?_setattr_same _ _ _

theorem ids_apply_present (d : Attrs) (n : String) (v : PyVal) (t : String)
    (target : PyVal) (h : getattr? d (.member n) = some target) :
    getattr? (apply d n v t) (.ids n) = some (.vids (idsOf d n ++ [t])) := by
  rw [apply_present d n v t target h]
  rw [getattr?_setattr_ne _ _ _ _ (by intro e; cases e)]
  exact getattr?_setattr_same _ _ _

theorem item_apply_present_top (d : Attrs) (n : String) (v : PyVal)
    (t : String) (target : PyVal) (h : getattr? d (.member n) = some target) :
    getattr? (apply d n v t) (.item n (idsOf d n).length) = some target := by
  rw [apply_present d n v t target h]
  rw [getattr?_setattr_ne _ _ _ _ (by intro e; cases e)]
  rw [getattr?_setattr_ne _ _ _ _ (by intro e; cases e)]
  exact getattr?_setattr_same _ _ _

theorem item_apply_present_lt (d : Attrs) (n : String) (v : PyVal)
    (t : String) (target : PyVal) (h : getattr? d (.member n) = some target)
    (i : Nat) (hi : i ≠ (idsOf d n).length) :
    getattr? (apply d n v t) (.item n i) = getattr? d (.item n i) := by
  rw [apply_present d n v t target h]
  rw [getattr?_setattr_ne _ _ _ _ (by intro e; cases e)]
  rw [getattr?_setattr_ne _ _ _ _ (by intro e; cases e)]
  rw [getattr?_setattr_ne _ _ _ _ (by intro e; injection e with _ e2; exact hi e2)]

/-- C2 (counterexample): applying a patch to a destination with no member
`speed` and then reverting it deletes the member, but the CreatedFlag
`_monkey_created_speed` is still set afterwards — `revert`'s created branch
only deletes the member and returns, contradicting the claim that the flag is
cleared. -/
theorem revert_created_keeps_flag_counterexample :
    revert (apply ([] : Attrs) "speed" (.vint 5) "default") "speed" =
      .ok [(Key.created "speed", PyVal.vbool true)] ∧
    truthy (getattrD [(Key.created "speed", PyVal.vbool true)]
      (.created "speed") (.vbool false)) = true :=
  ⟨rfl, rfl⟩

/-- C2 (amended): for every slot whose member was absent before `apply` (so
the apply set the CreatedFlag and wrote the replacement), a single `revert`
deletes the member — afterwards the member is absent again and resolving it
fails with NotFound — but the CreatedFlag for that slot is left set, not
cleared. -/
theorem revert_created_deletes_member (d : Attrs) (n : String) (v : PyVal)
    (t : String) (habs : getattr? d (.member n) = none) :
    ∃ d', revert (apply d n v t) n = .ok d' ∧
      getattr? d' (.member n) = none ∧
      resolve_inst d' n = .error .notFound ∧
      truthy (getattrD d' (.created n) (.vbool false)) = true := by
  rw [apply_absent d n v t habs]
  set a := setattr (setattr d (.created n) (.vbool true)) (.member n) v with ha
  have hflag : getattr? a (.created n) = some (.vbool true) := by
    rw [ha, getattr?_setattr_ne _ _ _ _ (by intro e; cases e),
      getattr?_setattr_same]
  have hmem : getattr? a (.member n) = some v := getattr?_setattr_same _ _ _
  have hdel : getattr? (delattr a (.member n)) (.member n) = none :=
    getattr?_delattr_same _ _
  refine ⟨delattr a (.member n), ?_, hdel, ?_, ?_⟩
  · simp [revert, getattrD, hflag, truthy, hmem]
  · simp [resolve_inst, hdel]
  · rw [getattrD, getattr?_delattr_ne _ _ _ (by intro e; cases e), hflag]
    rfl

/-- C2 witness: the amended statement at the concrete scenario of the spec
(`destination` with no member `speed`, replacement `5`). -/
theorem revert_created_deletes_member_witness :
    ∃ d', revert (apply ([] : Attrs) "speed" (.vint 5) "default") "speed" =
        .ok d' ∧
      getattr? d' (.member "speed") = none ∧
      resolve_inst d' "speed" = .error .notFound ∧
      truthy (getattrD d' (.created "speed") (.vbool false)) = true :=
  revert_created_deletes_member [] "speed" (.vint 5) "default" rfl

/-- C6 (counterexample): reverting a slot with no CreatedFlag and no stored
originals on a destination that does not expose `__name__` (a plain
instance) raises a NotFound-class error (`AttributeError`), not a Revert
error: the failure path formats `patch.destination.__name__` into its
message, and that attribute access itself raises `AttributeError` first. -/
theorem revert_empty_error_class_counterexample :
    revert ([] : Attrs) "m" = .error .notFound ∧ Err.notFound ≠ Err.revertErr :=
  ⟨rfl, by decide⟩

/-- C6 (amended): a `revert` on a slot whose CreatedFlag is not set and whose
OriginalSlot stack is absent or empty fails synchronously and performs no
mutation; the error is the Revert error (`RuntimeError`) when the destination
exposes `__name__` (types, modules), but is a NotFound-class error
(`AttributeError`) for a destination without `__name__`, because the error
message formats `destination.__name__`. -/
theorem revert_empty_fails (d : Attrs) (n : String)
    (hflag : truthy (getattrD d (.created n) (.vbool false)) = false)
    (hids : getattr? d (.ids n) = none ∨
      getattr? d (.ids n) = some (.vids [])) :
    revert d n = .error (revertFailErr d) ∧
      (getattr? d .dunderName ≠ none → revert d n = .error .revertErr) ∧
      (getattr? d .dunderName = none → revert d n = .error .notFound) := by
  have hmain : revert d n = .error (revertFailErr d) := by
    rcases hids with h | h
    · simp [revert, hflag, h]
    · simp [revert, hflag, h]
  refine ⟨hmain, ?_, ?_⟩
  · intro hname
    rw [hmain]
    unfold revertFailErr
    cases hval : getattr? d .dunderName with
    | none => exact absurd hval hname
    | some v => simp [hval]
  · intro hname
    rw [hmain]
    unfold revertFailErr
    simp [hname]

/-- C6 witness: the amended statement at two concrete destinations — one
without `__name__` (plain instance, NotFound-class error) and one with
`__name__` (class-like, Revert error). -/
theorem revert_empty_fails_witness :
    revert ([] : Attrs) "m" = .error (revertFailErr []) ∧
      revert [(Key.dunderName, PyVal.vstr "C")] "m" = .error .revertErr :=
  ⟨(revert_empty_fails [] "m" rfl (Or.inl rfl)).1,
    (revert_empty_fails [(Key.dunderName, PyVal.vstr "C")] "m" rfl
      (Or.inl rfl)).2.1 (by decide)⟩

/-- Reassociation: doing `k+1` reverts is doing `k` reverts and then one
more. -/
theorem revertSeq_succ_last (n : String) :
    ∀ (k : Nat) (d : Attrs),
      revertSeq d n (k + 1) =
        (revertSeq d n k).bind (fun s => revert s n) := by
  intro k
  induction k with
  | zero =>
      intro d
      show (revert d n).bind (fun d' => revertSeq d' n 0) = revert d n
      cases revert d n <;> rfl
  | succ k ih =>
      intro d
      show (revert d n).bind (fun s => revertSeq s n (k + 1)) =
        ((revert d n).bind (fun s => revertSeq s n k)).bind
          (fun s => revert s n)
      cases revert d n with
      | error e => rfl
      | ok s => exact ih s

/-- Core stack-balance invariant for an initially-present member: after any
list of applies on the slot followed by the same number of reverts, the
member, CreatedFlag and ids slots return to their initial readings, every
revert succeeds, and stored items below the initial stack height are
untouched. -/
theorem balance_core (n : String) (ps : List (PyVal × String)) :
    ∀ (s : Attrs) (V : PyVal),
      getattr? s (.member n) = some V →
      truthy (getattrD s (.created n) (.vbool false)) = false →
      IdsOk s n →
      ∃ s', revertSeq (applySeq s n ps) n ps.length = .ok s' ∧
        getattr? s' (.member n) = some V ∧
        truthy (getattrD s' (.created n) (.vbool false)) = false ∧
        idsOf s' n = idsOf s n ∧ IdsOk s' n ∧
        (∀ i, i < (idsOf s n).length →
          getattr? s' (.item n i) = getattr? s (.item n i)) := by
  induction ps with
  | nil =>
      intro s V h1 h2 h3
      exact ⟨s, rfl, h1, h2, rfl, h3, fun _ _ => rfl⟩
  | cons p rest ih =>
      intro s V h1 h2 h3
      set l := idsOf s n with hl
      set s1 := apply s n p.1 p.2 with hs1
      have hmem1 : getattr? s1 (.member n) = some p.1 := member_apply s n p.1 p.2
      have hflag1 : truthy (getattrD s1 (.created n) (.vbool false)) = false := by
        rw [getattrD, flag_apply_present s n p.1 p.2 V h1]
        exact h2
      have hids1 : getattr? s1 (.ids n) = some (.vids (l ++ [p.2])) :=
        ids_apply_present s n p.1 p.2 V h1
      have hidsOf1 : idsOf s1 n = l ++ [p.2] := by
        rw [idsOf, hids1]
      have hidsOk1 : IdsOk s1 n := Or.inr ⟨l ++ [p.2], hids1⟩
      have htop1 : getattr? s1 (.item n l.length) = some V :=
        item_apply_present_top s n p.1 p.2 V h1
      have hlow1 : ∀ i, i < l.length →
          getattr? s1 (.item n i) = getattr? s (.item n i) := by
        intro i hi
        exact item_apply_present_lt s n p.1 p.2 V h1 i (Nat.ne_of_lt hi)
      obtain ⟨s2, hrun, hmem2, hflag2, hidsOf2, hidsOk2, hitems2⟩ :=
        ih s1 p.1 hmem1 hflag1 hidsOk1
      -- the ids slot of s2 must actually be present: its reading is nonempty
      have hids2 : getattr? s2 (.ids n) = some (.vids (l ++ [p.2])) := by
        rcases hidsOk2 with h | ⟨l2, h⟩
        · exfalso
          have : idsOf s2 n = [] := by rw [idsOf, h]
          rw [hidsOf1] at hidsOf2
          simp [this] at hidsOf2
        · have : l2 = l ++ [p.2] := by
            have := hidsOf2
            rw [hidsOf1, idsOf, h] at this
            exact this
          rw [h, this]
      have hitem2top : getattr? s2 (.item n l.length) = some V := by
        have := hitems2 l.length (by rw [hidsOf1]; simp)
        rw [this, htop1]
      -- the final revert pops the entry pushed by the first apply
      have hlen : (l ++ [p.2]).length - 1 = l.length := by simp
      have hrev : revert s2 n =
          .ok (setattr (delattr (setattr s2 (.member n) V)
            (.item n l.length)) (.ids n) (.vids l)) := by
        have hne : (l ++ [p.2]).isEmpty = false := by simp
        have hdrop : (l ++ [p.2]).dropLast = l := by simp
        rw [revert, hflag2]
        simp only [Bool.false_eq_true, if_false]
        rw [hids2]
        simp only [hne, Bool.false_eq_true, if_false]
        rw [hlen, hitem2top, hdrop]
      refine ⟨setattr (delattr (setattr s2 (.member n) V)
        (.item n l.length)) (.ids n) (.vids l), ?_, ?_, ?_, ?_, ?_, ?_⟩
      · show revertSeq (applySeq s1 n rest) n (rest.length + 1) = _
        rw [revertSeq_succ_last n rest.length (applySeq s1 n rest), hrun]
        exact hrev
      · rw [getattr?_setattr_ne _ _ _ _ (by intro e; cases e),
          getattr?_delattr_ne _ _ _ (by intro e; cases e),
          getattr?_setattr_same]
      · rw [getattrD, getattr?_setattr_ne _ _ _ _ (by intro e; cases e),
          getattr?_delattr_ne _ _ _ (by intro e; cases e),
          getattr?_setattr_ne _ _ _ _ (by intro e; cases e)]
        rw [getattrD] at hflag2
        exact hflag2
      · rw [idsOf, getattr?_setattr_same]
      · exact Or.inr ⟨l, getattr?_setattr_same _ _ _⟩
      · intro i hi
        rw [getattr?_setattr_ne _ _ _ _ (by intro e; cases e),
          getattr?_delattr_ne _ _ _
            (by intro e; injection e with _ e2; exact (Nat.ne_of_lt hi) e2),
          getattr?_setattr_ne _ _ _ _ (by intro e; cases e)]
        have := hitems2 i (by rw [hidsOf1]; simp; omega)
        rw [this]
        exact hlow1 i hi

/-- Any sequence of applies on a slot whose member is present keeps the
member present and never touches the CreatedFlag slot. -/
theorem applySeq_present (n : String) (ps : List (PyVal × String)) :
    ∀ s : Attrs, (getattr? s (.member n)).isSome = true →
      (getattr? (applySeq s n ps) (.member n)).isSome = true ∧
      getattr? (applySeq s n ps) (.created n) = getattr? s (.created n) := by
  induction ps with
  | nil => intro s h; exact ⟨h, rfl⟩
  | cons p rest ih =>
      intro s h
      obtain ⟨target, htarget⟩ := Option.isSome_iff_exists.mp h
      have h1 : getattr? (apply s n p.1 p.2) (.member n) = some p.1 :=
        member_apply s n p.1 p.2
      have h2 := flag_apply_present s n p.1 p.2 target htarget
      obtain ⟨a, b⟩ := ih (apply s n p.1 p.2) (by rw [h1]; rfl)
      refine ⟨a, ?_⟩
      show getattr? (applySeq (apply s n p.1 p.2) n rest) (Key.created n) =
        getattr? s (Key.created n)
      rw [b, h2]

/-- C1 (counterexample): on a slot whose member is absent beforehand,
two applies followed by two reverts do NOT return the slot to its
pre-apply state without failure — the first revert takes the created branch
and deletes the member while leaving the flag set and the stacked original
in place, and the second revert raises an `AttributeError` from
`delattr` because the member is already gone. -/
theorem stack_balance_counterexample :
    revertSeq (applySeq ([] : Attrs) "speed"
      [(.vint 5, "default"), (.vint 6, "default")]) "speed" 2 =
      .error .notFound := rfl

/-- C1 (amended): N applies followed by N reverts restore the member's
pre-apply value with no revert failing whenever the member existed
beforehand (any N, arbitrary tags and replacements), and also when the
member was absent beforehand and N ≤ 1; but when the member was absent
beforehand and N ≥ 2, the revert sequence fails (the second revert raises),
so the stack-balance invariant does not hold for created slots. -/
theorem stack_balance_amended :
    (∀ (s : Attrs) (n : String) (V : PyVal) (ps : List (PyVal × String)),
      getattr? s (.member n) = some V →
      truthy (getattrD s (.created n) (.vbool false)) = false →
      IdsOk s n →
      ∃ s', revertSeq (applySeq s n ps) n ps.length = .ok s' ∧
        getattr? s' (.member n) = some V) ∧
    (∀ (s : Attrs) (n : String) (v : PyVal) (t : String),
      getattr? s (.member n) = none →
      ∃ s', revertSeq (applySeq s n [(v, t)]) n 1 = .ok s' ∧
        getattr? s' (.member n) = none) ∧
    (∀ (s : Attrs) (n : String) (p q : PyVal × String)
        (ps : List (PyVal × String)),
      getattr? s (.member n) = none →
      revertSeq (applySeq s n (p :: q :: ps)) n (ps.length + 2) =
        .error .notFound) := by
  refine ⟨?_, ?_, ?_⟩
  · intro s n V ps h1 h2 h3
    obtain ⟨s', hrun, hmem, _⟩ := balance_core n ps s V h1 h2 h3
    exact ⟨s', hrun, hmem⟩
  · intro s n v t habs
    set s1 := apply s n v t with hs1
    have hflag : getattr? s1 (.created n) = some (.vbool true) := by
      rw [hs1, apply_absent s n v t habs,
        getattr?_setattr_ne _ _ _ _ (by intro e; cases e),
        getattr?_setattr_same]
    have hmem : getattr? s1 (.member n) = some v := member_apply s n v t
    refine ⟨delattr s1 (.member n), ?_, getattr?_delattr_same _ _⟩
    show (revert s1 n).bind _ = _
    have : revert s1 n = .ok (delattr s1 (.member n)) := by
      simp [revert, getattrD, hflag, truthy, hmem]
    rw [this]
    rfl
  · intro s n p q ps habs
    set s1 := apply s n p.1 p.2 with hs1
    have hflag1 : getattr? s1 (.created n) = some (.vbool true) := by
      rw [hs1, apply_absent s n p.1 p.2 habs,
        getattr?_setattr_ne _ _ _ _ (by intro e; cases e),
        getattr?_setattr_same]
    have hmem1 : getattr? s1 (.member n) = some p.1 := member_apply s n p.1 p.2
    obtain ⟨hmemF, hflagF⟩ :=
      applySeq_present n (q :: ps) s1 (by rw [hmem1]; rfl)
    set F := applySeq s1 n (q :: ps) with hF
    obtain ⟨target, htarget⟩ := Option.isSome_iff_exists.mp hmemF
    have hrev1 : revert F n = .ok (delattr F (.member n)) := by
      simp [revert, getattrD, hflagF, hflag1, truthy, htarget]
    have hflag3 : getattr? (delattr F (.member n)) (.created n) =
        some (.vbool true) := by
      rw [getattr?_delattr_ne _ _ _ (by intro e; cases e), hflagF, hflag1]
    have hmem3 : getattr? (delattr F (.member n)) (.member n) = none :=
      getattr?_delattr_same _ _
    have hrev2 : revert (delattr F (.member n)) n = .error .notFound := by
      simp [revert, getattrD, hflag3, truthy, hmem3]
    show revertSeq (applySeq s1 n (q :: ps)) n (ps.length + 2) = _
    show (revert F n).bind (fun d' => revertSeq d' n (ps.length + 1)) = _
    rw [hrev1]
    show (revert (delattr F (.member n)) n).bind
      (fun d' => revertSeq d' n ps.length) = _
    rw [hrev2]
    rfl

/-- A successful revert on a slot whose CreatedFlag reads false pops the top
stack entry: the pre-state had a nonempty ids tuple and a stored top item,
and the post-state is exactly the pop. -/
theorem revert_flagfalse_ok (s : Attrs) (n : String) (s2 : Attrs)
    (hflag : truthy (getattrD s (.created n) (.vbool false)) = false)
    (hok : revert s n = .ok s2) :
    ∃ l attr, getattr? s (.ids n) = some (.vids l) ∧ l.isEmpty = false ∧
      getattr? s (.item n (l.length - 1)) = some attr ∧
      s2 = setattr (delattr (setattr s (.member n) attr)
        (.item n (l.length - 1))) (.ids n) (.vids l.dropLast) := by
  unfold revert at hok
  rw [hflag] at hok
  simp only [Bool.false_eq_true, if_false] at hok
  cases hids : getattr? s (.ids n) with
  | none => rw [hids] at hok; cases hok
  | some v =>
      rw [hids] at hok
      cases v with
      | vids l =>
          by_cases hl : l.isEmpty
          · simp [hl] at hok
          · simp only [hl, Bool.false_eq_true, if_false] at hok
            cases hitem : getattr? s (.item n (l.length - 1)) with
            | none => rw [hitem] at hok; cases hok
            | some attr =>
                rw [hitem] at hok
                injection hok with hok
                exact ⟨l, attr, rfl, by simpa using hl, hitem, hok.symm⟩
      | vbool b => by_cases hb : truthy (.vbool b) <;> simp [hb] at hok
      | vint m => by_cases hb : truthy (.vint m) <;> simp [hb] at hok
      | vstr t => by_cases hb : truthy (.vstr t) <;> simp [hb] at hok

/-- C3 (counterexample): starting from a fresh slot (member absent, no
flag, no stack), two consecutive applies reach a state in which the
CreatedFlag is set AND the OriginalSlot stack is nonempty, because the
second apply pushes an original while the flag set by the first apply is
never cleared — the claimed mutual exclusion fails on a reachable state. -/
theorem flag_stack_exclusive_counterexample :
    runOps ([] : Attrs) "m" [.app (.vint 5) "a", .app (.vint 6) "b"] =
      .ok [(Key.member "m", PyVal.vint 6), (Key.ids "m", PyVal.vids ["b"]),
        (Key.item "m" 0, PyVal.vint 5), (Key.created "m", PyVal.vbool true)] ∧
    truthy (getattrD [(Key.member "m", PyVal.vint 6),
      (Key.ids "m", PyVal.vids ["b"]), (Key.item "m" 0, PyVal.vint 5),
      (Key.created "m", PyVal.vbool true)] (.created "m") (.vbool false)) =
      true ∧
    idsOf [(Key.member "m", PyVal.vint 6), (Key.ids "m", PyVal.vids ["b"]),
      (Key.item "m" 0, PyVal.vint 5), (Key.created "m", PyVal.vbool true)]
      "m" = ["b"] :=
  ⟨rfl, rfl, rfl⟩

/-- C3 (amended): mutual exclusion of the CreatedFlag and a nonempty
OriginalSlot stack holds in every state reachable by apply/revert sequences
from a slot whose member exists and whose flag is unset (the flag is never
set on such slots); it fails in general for slots created by an apply, where
a further apply yields a reachable state with both (see the
counterexample). -/
theorem flag_stack_exclusive_amended :
    ∀ (ops : List Op) (s : Attrs) (n : String) (s' : Attrs),
      (getattr? s (.member n)).isSome = true →
      truthy (getattrD s (.created n) (.vbool false)) = false →
      runOps s n ops = .ok s' →
      truthy (getattrD s' (.created n) (.vbool false)) = false ∧
      ¬(truthy (getattrD s' (.created n) (.vbool false)) = true ∧
        idsOf s' n ≠ []) := by
  intro ops
  induction ops with
  | nil =>
      intro s n s' h1 h2 hrun
      injection hrun with hrun
      subst hrun
      refine ⟨h2, ?_⟩
      rintro ⟨ha, _⟩
      rw [h2] at ha
      cases ha
  | cons op ops ih =>
      intro s n s' h1 h2 hrun
      cases op with
      | app v t =>
          have hstep : runOps (apply s n v t) n ops = .ok s' := hrun
          obtain ⟨target, htarget⟩ := Option.isSome_iff_exists.mp h1
          refine ih (apply s n v t) n s' ?_ ?_ hstep
          · rw [member_apply s n v t]; rfl
          · rw [getattrD, flag_apply_present s n v t target htarget]
            exact h2
      | rev =>
          have hbind : (revert s n).bind (fun d' => runOps d' n ops) =
            .ok s' := hrun
          cases hr : revert s n with
          | error e => rw [hr] at hbind; cases hbind
          | ok s2 =>
              rw [hr] at hbind
              obtain ⟨l, attr, hids, hl, hitem, hshape⟩ :=
                revert_flagfalse_ok s n s2 h2 hr
              refine ih s2 n s' ?_ ?_ hbind
              · rw [hshape,
                  getattr?_setattr_ne _ _ _ _ (by intro e; cases e),
                  getattr?_delattr_ne _ _ _ (by intro e; cases e),
                  getattr?_setattr_same]
                rfl
              · rw [hshape, getattrD,
                  getattr?_setattr_ne _ _ _ _ (by intro e; cases e),
                  getattr?_delattr_ne _ _ _ (by intro e; cases e),
                  getattr?_setattr_ne _ _ _ _ (by intro e; cases e)]
                rw [getattrD] at h2
                exact h2

/-- C3 witness: the amended statement at a concrete slot holding value 1,
after one apply and one revert. -/
theorem flag_stack_exclusive_amended_witness :
    truthy (getattrD [(Key.ids "m", PyVal.vids []),
      (Key.member "m", PyVal.vint 1)] (.created "m") (.vbool false)) =
      false ∧
    ¬(truthy (getattrD [(Key.ids "m", PyVal.vids []),
      (Key.member "m", PyVal.vint 1)] (.created "m") (.vbool false)) =
      true ∧
      idsOf [(Key.ids "m", PyVal.vids []),
        (Key.member "m", PyVal.vint 1)] "m" ≠ []) :=
  flag_stack_exclusive_amended [.app (.vint 2) "x", .rev]
    [(Key.member "m", PyVal.vint 1)] "m"
    [(Key.ids "m", PyVal.vids []), (Key.member "m", PyVal.vint 1)]
    rfl rfl rfl

/-- The last index kept by filtering `range (k+2)` is `k` when the predicate
holds at `k` and fails at `k+1`. -/
theorem getLast?_filter_range (P : Nat → Bool) (k : Nat)
    (hk : P k = true) (hk1 : P (k + 1) = false) :
    ((List.range (k + 2)).filter P).getLast? = some k := by
  have h2 : List.range (k + 2) = List.range (k + 1) ++ [k + 1] :=
    List.range_succ (k + 1)
  have h1 : List.range (k + 1) = List.range k ++ [k] := List.range_succ k
  rw [h2, List.filter_append, h1, List.filter_append]
  simp [hk, hk1]

/-- C5: after `apply(tag="x", value=2)` then `apply(tag="y", value=3)` on a
slot whose member originally holds 1, `get_original_attribute(.., "x")`
returns 1, found by scanning the ids tuple from most recent to oldest for
the first tag equal to `"x"`; two subsequent reverts restore the member to
1; and `get_original_attribute` fails with NotFound when no ids tuple is
stored or when no stored entry carries the requested tag. -/
theorem get_original_layers (s : Attrs) (n : String)
    (hmem : getattr? s (.member n) = some (.vint 1))
    (hflag : truthy (getattrD s (.created n) (.vbool false)) = false)
    (hidsok : IdsOk s n) :
    (get_original_attribute
      (apply (apply s n (.vint 2) "x") n (.vint 3) "y") n "x" =
        .ok (.vint 1)) ∧
    (∃ s'', revertSeq (apply (apply s n (.vint 2) "x") n (.vint 3) "y") n 2 =
        .ok s'' ∧ getattr? s'' (.member n) = some (.vint 1)) ∧
    (∀ (d : Attrs) (m id : String), getattr? d (.ids m) = none →
      get_original_attribute d m id = .error .notFound) ∧
    (∀ (d : Attrs) (m id : String) (l : List String),
      getattr? d (.ids m) = some (.vids l) → id ∉ l →
      get_original_attribute d m id = .error .notFound) := by
  set l0 := idsOf s n with hl0
  set k := l0.length with hk
  set s1 := apply s n (.vint 2) "x" with hs1
  have hmem1 : getattr? s1 (.member n) = some (.vint 2) :=
    member_apply s n (.vint 2) "x"
  have hids1 : getattr? s1 (.ids n) = some (.vids (l0 ++ ["x"])) :=
    ids_apply_present s n (.vint 2) "x" (.vint 1) hmem
  have hidsOf1 : idsOf s1 n = l0 ++ ["x"] := by rw [idsOf, hids1]
  have hitem1 : getattr? s1 (.item n k) = some (.vint 1) :=
    item_apply_present_top s n (.vint 2) "x" (.vint 1) hmem
  set s2 := apply s1 n (.vint 3) "y" with hs2
  have hids2 : getattr? s2 (.ids n) =
      some (.vids (l0 ++ ["x", "y"])) := by
    have := ids_apply_present s1 n (.vint 3) "y" (.vint 2) hmem1
    rw [hidsOf1] at this
    simpa using this
  have hitem2 : getattr? s2 (.item n k) = some (.vint 1) := by
    have := item_apply_present_lt s1 n (.vint 3) "y" (.vint 2) hmem1 k
      (by rw [hidsOf1]; simp [hk])
    rw [this, hitem1]
  refine ⟨?_, ?_, ?_, ?_⟩
  · have hgetk : (l0 ++ ["x", "y"]).getD k "" = "x" := by
      rw [List.getD_eq_getElem?_getD, List.getElem?_append_right (by omega)]
      simp [hk]
    have hgetk1 : (l0 ++ ["x", "y"]).getD (k + 1) "" = "y" := by
      rw [List.getD_eq_getElem?_getD, List.getElem?_append_right (by omega)]
      simp [hk]
    have hlen2 : (l0 ++ ["x", "y"]).length = k + 2 := by simp [hk]
    have hlast : ((List.range (l0 ++ ["x", "y"]).length).filter
        (fun i => (l0 ++ ["x", "y"]).getD i "" = "x")).getLast? = some k := by
      rw [hlen2]
      refine getLast?_filter_range _ k ?_ ?_
      · show decide ((l0 ++ ["x", "y"]).getD k "" = "x") = true
        rw [hgetk]
        simp
      · show decide ((l0 ++ ["x", "y"]).getD (k + 1) "" = "x") = false
        rw [hgetk1]
        simp
    rw [get_original_attribute, hids2]
    simp only [List.isEmpty_eq_true, List.append_eq_nil, List.cons_ne_self,
      and_false, if_false, reduceCtorEq]
    rw [hlast]
    show (match getattr? s2 (Key.item n k) with
      | some v => Except.ok v
      | none => Except.error Err.notFound) = Except.ok (PyVal.vint 1)
    rw [hitem2]
  · have := balance_core n [(.vint 2, "x"), (.vint 3, "y")] s (.vint 1)
      hmem hflag hidsok
    obtain ⟨s'', hrun, hm, _⟩ := this
    exact ⟨s'', hrun, hm⟩
  · intro d m id h
    rw [get_original_attribute, h]
  · intro d m id l h hnot
    rw [get_original_attribute, h]
    by_cases hl : l.isEmpty
    · simp [hl]
    · simp only [hl, Bool.false_eq_true, if_false]
      have hfilter : (List.range l.length).filter
          (fun i => l.getD i "" = id) = [] := by
        rw [List.filter_eq_nil_iff]
        intro i hi
        rw [List.mem_range] at hi
        simp only [decide_eq_true_eq]
        intro he
        apply hnot
        rw [← he, List.getD_eq_getElem?_getD, List.getElem?_eq_getElem hi]
        simp [List.getElem_mem]
      rw [hfilter]
      rfl

/-- C5 witness: the statement at a concrete slot `m` holding 1, plus the
failure clauses at concrete destinations (no ids stored; no matching tag). -/
theorem get_original_layers_witness :
    (get_original_attribute
      (apply (apply [(Key.member "m", PyVal.vint 1)] "m" (.vint 2) "x")
        "m" (.vint 3) "y") "m" "x" = .ok (.vint 1)) ∧
    (∃ s'', revertSeq
        (apply (apply [(Key.member "m", PyVal.vint 1)] "m" (.vint 2) "x")
          "m" (.vint 3) "y") "m" 2 = .ok s'' ∧
      getattr? s'' (.member "m") = some (.vint 1)) ∧
    get_original_attribute ([] : Attrs) "m" "x" = .error .notFound ∧
    get_original_attribute [(Key.ids "m", PyVal.vids ["y"])] "m" "x" =
      .error .notFound := by
  have h := get_original_layers [(Key.member "m", PyVal.vint 1)] "m"
    rfl rfl (Or.inl rfl)
  exact ⟨h.1, h.2.1, h.2.2.1 [] "m" "x" rfl,
    h.2.2.2 [(Key.ids "m", PyVal.vids ["y"])] "m" "x" ["y"] rfl
      (by decide)⟩

/-- C10: for every Patch object, `hash(p)` raises `TypeError`:
`Patch.__hash__` hashes `sorted(self.__dict__.items())`, and `sorted`
returns a list, which is unhashable — so although `Patch` defines equality
(`__eq__` compares `__dict__`), no Patch can ever be used as a set element
or dictionary key. -/
theorem patch_hash_type_error (dest namev obj settings : HVal) :
    patchHash dest namev obj settings = none := rfl

/-- `mroLookup` finds `v` exactly when some layer stores `n ↦ v` and every
earlier (more derived) layer does not store `n`. -/
theorem mroLookup_some_iff (n : String) (v : PyObj) :
    ∀ mro : List (Bool × List (String × PyObj)),
      mroLookup mro n = some v ↔
        ∃ pre L post, mro = pre ++ L :: post ∧
          (∀ L' ∈ pre, alookup L'.2 n = none) ∧ alookup L.2 n = some v := by
  intro mro
  induction mro with
  | nil =>
      simp only [mroLookup]
      constructor
      · intro h; cases h
      · rintro ⟨pre, L, post, he, -, -⟩
        exact absurd he.symm (List.append_ne_nil_of_right_ne_nil _ (by simp))
  | cons L rest ih =>
      constructor
      · intro h
        unfold mroLookup at h
        cases ha : alookup L.2 n with
        | some w =>
            rw [ha] at h
            injection h with h
            exact ⟨[], L, rest, rfl, by simp, by rw [ha, h]⟩
        | none =>
            rw [ha] at h
            obtain ⟨pre, L', post, he, hpre, hL⟩ := ih.mp h
            refine ⟨L :: pre, L', post, by rw [he]; simp, ?_, hL⟩
            intro L'' hmem
            rcases List.mem_cons.mp hmem with h' | h'
            · rw [h']; exact ha
            · exact hpre L'' h'
      · rintro ⟨pre, L', post, he, hpre, hL⟩
        cases pre with
        | nil =>
            injection he with he1 he2
            subst he1
            unfold mroLookup
            rw [hL]
        | cons P pre' =>
            injection he with he1 he2
            subst he1
            have hnone : alookup L.2 n = none := hpre L (by simp)
            unfold mroLookup
            rw [hnone]
            exact ih.mpr ⟨pre', L', post, he2, fun L'' h'' =>
              hpre L'' (List.mem_cons_of_mem L h''), hL⟩

/-- `mroLookup` fails exactly when no layer stores `n`. -/
theorem mroLookup_none_iff (n : String) :
    ∀ mro : List (Bool × List (String × PyObj)),
      mroLookup mro n = none ↔ ∀ L ∈ mro, alookup L.2 n = none := by
  intro mro
  induction mro with
  | nil => simp [mroLookup]
  | cons L rest ih =>
      unfold mroLookup
      cases ha : alookup L.2 n with
      | some w =>
          simp only [ha]
          constructor
          · intro h; cases h
          · intro hall
            rw [hall L (by simp)] at ha
            cases ha
      | none =>
          simp only [ha]
          rw [ih]
          constructor
          · intro hall L' hmem
            rcases List.mem_cons.mp hmem with h' | h'
            · rw [h']; exact ha
            · exact hall L' h'
          · intro hall L' hmem
            exact hall L' (List.mem_cons_of_mem L hmem)

/-- C4 (counterexample): a member name defined only on a universal root
base is FOUND by `get_attribute` — `inspect.getmro` includes `object` and
the loop performs no root-base exclusion — whereas the claim (mirrored by
`resolveSpec`) says such a lookup yields NotFound. -/
theorem resolve_root_base_counterexample :
    get_attribute (.cls [(false, []), (true, [("m", .leaf 7)])]) "m" =
      .ok (.leaf 7) ∧
    resolveSpec [(false, []), (true, [("m", .leaf 7)])] "m" =
      .error .notFound ∧
    (Except.ok (.leaf 7) : Except Err PyObj) ≠ .error .notFound :=
  ⟨rfl, rfl, by simp⟩

/-- C4 (amended): `resolve(T, n)` searches the FULL linearized ancestor
order most-derived first — the universal root bases included, not
excluded — and returns the first raw stored definition found (pure: no
side effects, no computed-property logic); it fails with NotFound exactly
when the name is stored on no layer at all, so a name defined only on a
root base is found rather than NotFound. -/
theorem resolve_full_mro (mro : List (Bool × List (String × PyObj)))
    (n : String) :
    (∀ v, get_attribute (.cls mro) n = .ok v ↔
      ∃ pre L post, mro = pre ++ L :: post ∧
        (∀ L' ∈ pre, alookup L'.2 n = none) ∧ alookup L.2 n = some v) ∧
    (get_attribute (.cls mro) n = .error .notFound ↔
      ∀ L ∈ mro, alookup L.2 n = none) := by
  have hga : get_attribute (.cls mro) n =
      (match mroLookup mro n with
        | some v => Except.ok v
        | none => Except.error Err.notFound) := rfl
  constructor
  · intro v
    rw [hga]
    constructor
    · intro h
      cases hm : mroLookup mro n with
      | some w =>
          rw [hm] at h
          injection h with h
          subst h
          exact (mroLookup_some_iff n w mro).mp hm
      | none => rw [hm] at h; cases h
    · intro hex
      have := (mroLookup_some_iff n v mro).mpr hex
      rw [this]
  · rw [hga]
    constructor
    · intro h
      cases hm : mroLookup mro n with
      | some w => rw [hm] at h; cases h
      | none => exact (mroLookup_none_iff n mro).mp hm
    · intro hall
      have := (mroLookup_none_iff n mro).mpr hall
      rw [this]

/-- C4 witness: the characterization at a concrete three-layer hierarchy —
the middle layer's definition is the one returned. -/
theorem resolve_full_mro_witness :
    get_attribute
      (.cls [(false, []), (false, [("m", .leaf 4)]), (true, [])]) "m" =
      .ok (.leaf 4) :=
  ((resolve_full_mro [(false, []), (false, [("m", .leaf 4)]), (true, [])]
      "m").1 (.leaf 4)).mpr
    ⟨[(false, [])], (false, [("m", .leaf 4)]), [(true, [])], rfl,
      by simp [alookup], rfl⟩

theorem create_patches_loop_nil (tb : Bool)
    (flt : String → PyObj → Bool) (recursive ud : Bool)
    (dd : Nat → Option DecData) :
    ∀ f, create_patches_loop tb flt recursive ud dd f [] = [] := by
  intro f
  cases f <;> rfl

theorem get_members_loop_nil (tb : Bool) (flt : String → PyObj → Bool)
    (recursive : Bool) :
    ∀ f, get_members_loop tb flt recursive f [] = [] := by
  intro f
  cases f <;> rfl

theorem module_iterator_loop_nil (recursive : Bool) :
    ∀ f, module_iterator_loop recursive f [] = [] := by
  intro f
  cases f <;> rfl

/-- With `recursive=False` — how `create_patches` calls it — `_get_members`
is a single collection pass over the object's root dicts. -/
theorem get_members_one (obj : PyObj) (tb : Bool)
    (flt : Option (String → PyObj → Bool)) :
    get_members obj tb flt false 1 =
      sortMembers (collectPairs (flt.getD trueFilter) []
        (rootsDicts obj tb).flatten) := by
  simp [get_members, get_members_loop, get_members_loop_nil]

/-- C9 (counterexample): `find_patches` does NOT restrict itself to
top-level module members — `_get_members` is called with its default
`recursive=True`, so it also enumerates the members of class-valued
members.  A module whose only member is a class containing a registered
function yields that function's patches, while the claim's top-level-only
reading (mirrored by `find_patches_top`) yields none. -/
theorem find_patches_nested_counterexample :
    find_patches [.module [("C", .cls [(false, [("f", .leaf 9)])])] []] true
      (fun i => if i = 9 then
        some ⟨[⟨.leaf 0, "g", .leaf 9⟩], none, none, none⟩ else none) 1 2 =
      [⟨.leaf 0, "g", .leaf 9⟩] ∧
    find_patches_top [.module [("C", .cls [(false, [("f", .leaf 9)])])] []]
      true (fun i => if i = 9 then
        some ⟨[⟨.leaf 0, "g", .leaf 9⟩], none, none, none⟩ else none) 1 =
      [] :=
  ⟨rfl, rfl⟩

/-- C9 (amended): `find` yields each root and then its enumerable child
modules, and for every yielded module appends, for each member found by
the member enumeration — which lists a module's top-level members in
sorted-name order and ALSO descends recursively into class-valued
members — whose unwrapped identity carries registration metadata, that
metadata's patches list, in module-then-member encounter order.  Over a
root package with two child modules each declaring registered patches,
find returns exactly those patch lists concatenated in child-enumeration
order. -/
theorem find_patches_order (n1 n2 : String) (i1 i2 : Nat)
    (l1 l2 : List MPatch) (dd : Nat → Option DecData)
    (h1 : dd i1 = some ⟨l1, none, none, none⟩)
    (h2 : dd i2 = some ⟨l2, none, none, none⟩) :
    module_iterator
        (.module [] [(false, .module [(n1, .leaf i1)] []),
          (false, .module [(n2, .leaf i2)] [])]) true 1 =
      [.module [] [(false, .module [(n1, .leaf i1)] []),
          (false, .module [(n2, .leaf i2)] [])],
        .module [(n1, .leaf i1)] [], .module [(n2, .leaf i2)] []] ∧
    find_patches [.module [] [(false, .module [(n1, .leaf i1)] []),
        (false, .module [(n2, .leaf i2)] [])]] true dd 1 1 = l1 ++ l2 := by
  refine ⟨rfl, ?_⟩
  simp [find_patches, module_iterator, module_iterator_loop, iterChildren,
    module_children, module_iterator_loop_nil, collectModulePatches,
    get_members, get_members_loop, get_members_loop_nil, rootsDicts,
    dictOf, collectPairs, sortMembers, trueFilter, get_base,
    get_decorator_data, h1, h2]

/-- C9 witness: the amended statement at a concrete two-child package. -/
theorem find_patches_order_witness :
    find_patches [.module [] [(false, .module [("p1", .leaf 1)] []),
        (false, .module [("p2", .leaf 2)] [])]] true
      (fun i => if i = 1 then
          some ⟨[⟨.leaf 10, "u", .leaf 1⟩], none, none, none⟩
        else if i = 2 then
          some ⟨[⟨.leaf 11, "w", .leaf 2⟩], none, none, none⟩
        else none) 1 1 =
      [⟨.leaf 10, "u", .leaf 1⟩] ++ [⟨.leaf 11, "w", .leaf 2⟩] :=
  (find_patches_order "p1" "p2" 1 2 [⟨.leaf 10, "u", .leaf 1⟩]
    [⟨.leaf 11, "w", .leaf 2⟩]
    (fun i => if i = 1 then
        some ⟨[⟨.leaf 10, "u", .leaf 1⟩], none, none, none⟩
      else if i = 2 then
        some ⟨[⟨.leaf 11, "w", .leaf 2⟩], none, none, none⟩
      else none) rfl rfl).2

/-- C7: `build()` with the default filter over a template exposing `foo`,
`_bar` and a nested composite `Inner{a, b}` yields a patch for `foo`, no
patch for `_bar` (underscore names are filtered), and — exactly when the
destination already holds a class-valued member named `Inner` — per-member
patches for `Inner.a` and `Inner.b` whose destination is that existing
class; when the destination has no member `Inner`, or a non-class one, a
single leaf patch replaces `Inner` wholesale.  (Members are processed in
sorted name order: `Inner`, `_bar`, `foo`.) -/
theorem build_recursion_cases (dD : List (String × PyObj))
    (f b x y : Nat) (mi : List (Bool × List (String × PyObj)))
    (dd : Nat → Option DecData) (hdd : ∀ i, dd i = none) :
    (alookup dD "Inner" = some (.cls mi) →
      create_patches (.inst dD)
        (.cls [(false, [("foo", .leaf f), ("_bar", .leaf b),
          ("Inner", .cls [(false, [("a", .leaf x), ("b", .leaf y)])])])])
        true (some default_filter) true true dd 2 =
        [⟨.inst dD, "foo", .leaf f⟩,
          ⟨.cls mi, "a", .leaf x⟩, ⟨.cls mi, "b", .leaf y⟩]) ∧
    (alookup dD "Inner" = none →
      create_patches (.inst dD)
        (.cls [(false, [("foo", .leaf f), ("_bar", .leaf b),
          ("Inner", .cls [(false, [("a", .leaf x), ("b", .leaf y)])])])])
        true (some default_filter) true true dd 2 =
        [⟨.inst dD, "Inner",
            .cls [(false, [("a", .leaf x), ("b", .leaf y)])]⟩,
          ⟨.inst dD, "foo", .leaf f⟩]) ∧
    (∀ t, alookup dD "Inner" = some t → isClass t = false →
      create_patches (.inst dD)
        (.cls [(false, [("foo", .leaf f), ("_bar", .leaf b),
          ("Inner", .cls [(false, [("a", .leaf x), ("b", .leaf y)])])])])
        true (some default_filter) true true dd 2 =
        [⟨.inst dD, "Inner",
            .cls [(false, [("a", .leaf x), ("b", .leaf y)])]⟩,
          ⟨.inst dD, "foo", .leaf f⟩]) := by
  have hsortT : sortMembers (collectPairs trueFilter []
      (rootsDicts (.cls [(false, [("foo", .leaf f), ("_bar", .leaf b),
        ("Inner", .cls [(false, [("a", .leaf x), ("b", .leaf y)])])])])
        true).flatten) =
      [("Inner", .cls [(false, [("a", .leaf x), ("b", .leaf y)])]),
        ("_bar", .leaf b), ("foo", .leaf f)] := rfl
  have hsortI : sortMembers (collectPairs trueFilter []
      (rootsDicts (.cls [(false, [("a", .leaf x), ("b", .leaf y)])])
        true).flatten) =
      [("a", .leaf x), ("b", .leaf y)] := rfl
  have e1 : startsWithUnderscore "foo" = false := rfl
  have e2 : startsWithUnderscore "_bar" = true := rfl
  have e3 : startsWithUnderscore "Inner" = false := rfl
  have e4 : startsWithUnderscore "a" = false := rfl
  have e5 : startsWithUnderscore "b" = false := rfl
  refine ⟨?_, ?_, ?_⟩
  · intro h
    simp [create_patches, create_patches_loop, create_patches_loop_nil,
      get_members_one, hsortT, hsortI, processMembers, processMember,
      get_decorator_data, get_base, default_filter, isModule, isClass,
      get_attribute, hdd, h, e1, e2, e3, e4, e5]
  · intro h
    simp [create_patches, create_patches_loop, create_patches_loop_nil,
      get_members_one, hsortT, hsortI, processMembers, processMember,
      get_decorator_data, get_base, default_filter, isModule, isClass,
      get_attribute, hdd, h, e1, e2, e3, e4, e5]
  · intro t h hcls
    cases t <;>
      simp_all [create_patches, create_patches_loop, create_patches_loop_nil,
        get_members_one, hsortT, hsortI, processMembers, processMember,
        get_decorator_data, get_base, default_filter, isModule, isClass,
        get_attribute, hdd, e1, e2, e3, e4, e5]

/-- C7 witness: the three cases at concrete destinations — one holding a
class `Inner`, one empty, one holding a non-class `Inner`. -/
theorem build_recursion_cases_witness :
    create_patches (.inst [("Inner", .cls [(false, [])])])
      (.cls [(false, [("foo", .leaf 1), ("_bar", .leaf 2),
        ("Inner", .cls [(false, [("a", .leaf 3), ("b", .leaf 4)])])])])
      true (some default_filter) true true (fun _ => none) 2 =
      [⟨.inst [("Inner", .cls [(false, [])])], "foo", .leaf 1⟩,
        ⟨.cls [(false, [])], "a", .leaf 3⟩,
        ⟨.cls [(false, [])], "b", .leaf 4⟩] ∧
    create_patches (.inst [])
      (.cls [(false, [("foo", .leaf 1), ("_bar", .leaf 2),
        ("Inner", .cls [(false, [("a", .leaf 3), ("b", .leaf 4)])])])])
      true (some default_filter) true true (fun _ => none) 2 =
      [⟨.inst [], "Inner", .cls [(false, [("a", .leaf 3), ("b", .leaf 4)])]⟩,
        ⟨.inst [], "foo", .leaf 1⟩] ∧
    create_patches (.inst [("Inner", .leaf 9)])
      (.cls [(false, [("foo", .leaf 1), ("_bar", .leaf 2),
        ("Inner", .cls [(false, [("a", .leaf 3), ("b", .leaf 4)])])])])
      true (some default_filter) true true (fun _ => none) 2 =
      [⟨.inst [("Inner", .leaf 9)], "Inner",
          .cls [(false, [("a", .leaf 3), ("b", .leaf 4)])]⟩,
        ⟨.inst [("Inner", .leaf 9)], "foo", .leaf 1⟩] :=
  ⟨(build_recursion_cases [("Inner", .cls [(false, [])])] 1 2 3 4
      [(false, [])] (fun _ => none) (fun _ => rfl)).1 rfl,
    (build_recursion_cases [] 1 2 3 4 [] (fun _ => none)
      (fun _ => rfl)).2.1 rfl,
    (build_recursion_cases [("Inner", .leaf 9)] 1 2 3 4 [] (fun _ => none)
      (fun _ => rfl)).2.2 (.leaf 9) rfl rfl⟩

theorem charListLe_total : ∀ as bs,
    charListLe as bs = true ∨ charListLe bs as = true := by
  intro as
  induction as with
  | nil => intro bs; left; rfl
  | cons a as ih =>
      intro bs
      cases bs with
      | nil => right; rfl
      | cons b bs' =>
          rcases Nat.lt_trichotomy a.toNat b.toNat with h | h | h
          · left; simp [charListLe, h]
          · have h1 : ¬ a.toNat < b.toNat := by omega
            have h2 : ¬ b.toNat < a.toNat := by omega
            rcases ih bs' with hl | hr
            · left; simp [charListLe, h1, h2, hl]
            · right; simp [charListLe, h1, h2, hr]
          · right; simp [charListLe, h]

theorem charListLe_trans : ∀ as bs cs, charListLe as bs = true →
    charListLe bs cs = true → charListLe as cs = true := by
  intro as
  induction as with
  | nil => intro bs cs _ _; rfl
  | cons a as ih =>
      intro bs cs hab hbc
      cases bs with
      | nil => rw [charListLe] at hab; cases hab
      | cons b bs' =>
          cases cs with
          | nil => rw [charListLe] at hbc; cases hbc
          | cons c cs' =>
              by_cases h1 : a.toNat < b.toNat
              · by_cases h2 : b.toNat < c.toNat
                · have h : a.toNat < c.toNat := by omega
                  simp [charListLe, h]
                · by_cases h3 : c.toNat < b.toNat
                  · rw [charListLe] at hbc
                    simp [h2, h3] at hbc
                  · have h : a.toNat < c.toNat := by omega
                    simp [charListLe, h]
              · by_cases h4 : b.toNat < a.toNat
                · rw [charListLe] at hab
                  simp [h1, h4] at hab
                · rw [charListLe] at hab
                  simp [h1, h4] at hab
                  by_cases h2 : b.toNat < c.toNat
                  · have h : a.toNat < c.toNat := by omega
                    simp [charListLe, h]
                  · by_cases h3 : c.toNat < b.toNat
                    · rw [charListLe] at hbc
                      simp [h2, h3] at hbc
                    · have h5 : ¬ a.toNat < c.toNat := by omega
                      have h6 : ¬ c.toNat < a.toNat := by omega
                      rw [charListLe] at hbc
                      simp [h2, h3] at hbc
                      simp [charListLe, h5, h6]
                      exact ih bs' cs' hab hbc

theorem strLe_total (a b : String) : strLe a b = true ∨ strLe b a = true :=
  charListLe_total a.data b.data

theorem strLe_trans {a b c : String} (h1 : strLe a b = true)
    (h2 : strLe b c = true) : strLe a c = true :=
  charListLe_trans a.data b.data c.data h1 h2

instance memberLeTotal :
    IsTotal (String × PyObj) (fun a b => strLe a.1 b.1 = true) :=
  ⟨fun a b => strLe_total a.1 b.1⟩

instance memberLeTrans :
    IsTrans (String × PyObj) (fun a b => strLe a.1 b.1 = true) :=
  ⟨fun _ _ _ => strLe_trans⟩

/-- A registry with no registered identity yields no decorator data for any
object. -/
theorem get_decorator_data_none (dd : Nat → Option DecData)
    (hdd : ∀ i, dd i = none) : ∀ o, get_decorator_data dd o = none := by
  intro o
  cases o <;> simp [get_decorator_data, hdd]

/-- Membership in the member collection is exactly: the name's FIRST
binding in the concatenated root dicts (the most-derived definition), with
the name not already seen and accepted by the filter.  In particular a
later (less-derived) duplicate binding is never collected — `seen.add`
runs on the first occurrence — and names absent from the dicts contribute
nothing. -/
theorem collectPairs_mem_iff (flt : String → PyObj → Bool) (nm : String)
    (w : PyObj) :
    ∀ (pairs : List (String × PyObj)) (seen : List String),
      (nm, w) ∈ collectPairs flt seen pairs ↔
        (alookup pairs nm = some w ∧ seen.contains nm = false ∧
          flt nm w = true) := by
  intro pairs
  induction pairs with
  | nil =>
      intro seen
      simp [collectPairs, alookup]
  | cons p rest ih =>
      intro seen
      unfold collectPairs
      constructor
      · intro hmem
        by_cases hcond : (!(seen.contains p.1) && flt p.1 p.2) = true
        · rw [if_pos hcond] at hmem
          rcases List.mem_cons.mp hmem with he | hm
          · have h1 : nm = p.1 := congrArg Prod.fst he
            have h2 : w = p.2 := congrArg Prod.snd he
            rw [Bool.and_eq_true] at hcond
            obtain ⟨hunseen, hfltp⟩ := hcond
            refine ⟨?_, ?_, ?_⟩
            · unfold alookup
              rw [if_pos h1.symm, h2]
            · rw [h1]
              simpa using hunseen
            · rw [h1, h2]
              exact hfltp
          · obtain ⟨ha, hs, hf⟩ := (ih (p.1 :: seen)).mp hm
            rw [List.contains_cons, Bool.or_eq_false_iff] at hs
            have hne : ¬ p.1 = nm := by
              have hb := hs.1
              simp only [beq_eq_false_iff_ne, ne_eq] at hb
              exact fun e => hb e.symm
            refine ⟨?_, hs.2, hf⟩
            unfold alookup
            rw [if_neg hne]
            exact ha
        · rw [if_neg hcond] at hmem
          obtain ⟨ha, hs, hf⟩ := (ih (p.1 :: seen)).mp hmem
          rw [List.contains_cons, Bool.or_eq_false_iff] at hs
          have hne : ¬ p.1 = nm := by
            have hb := hs.1
            simp only [beq_eq_false_iff_ne, ne_eq] at hb
            exact fun e => hb e.symm
          refine ⟨?_, hs.2, hf⟩
          unfold alookup
          rw [if_neg hne]
          exact ha
      · rintro ⟨ha, hs, hf⟩
        by_cases hp : p.1 = nm
        · have hw : p.2 = w := by
            unfold alookup at ha
            rw [if_pos hp] at ha
            injection ha
          have hcond : (!(seen.contains p.1) && flt p.1 p.2) = true := by
            rw [hp, hw, hs, hf]
            rfl
          rw [if_pos hcond]
          have he : (nm, w) = (p.1, p.2) := by rw [hp, hw]
          rw [he]
          exact List.mem_cons_self _ _
        · have ha' : alookup rest nm = some w := by
            unfold alookup at ha
            rw [if_neg hp] at ha
            exact ha
          have hs' : (p.1 :: seen).contains nm = false := by
            rw [List.contains_cons, Bool.or_eq_false_iff]
            refine ⟨?_, hs⟩
            simp only [beq_eq_false_iff_ne, ne_eq]
            exact fun e => hp e.symm
          have hrec := (ih (p.1 :: seen)).mpr ⟨ha', hs', hf⟩
          by_cases hcond : (!(seen.contains p.1) && flt p.1 p.2) = true
          · rw [if_pos hcond]
            exact List.mem_cons_of_mem _ hrec
          · rw [if_neg hcond]
            exact hrec

/-- The collected member names are distinct and disjoint from `seen`: the
`seen` dedup takes each name at most once. -/
theorem collectPairs_names_nodup (flt : String → PyObj → Bool) :
    ∀ (pairs : List (String × PyObj)) (seen : List String),
      ((collectPairs flt seen pairs).map Prod.fst).Nodup ∧
      (∀ nm ∈ (collectPairs flt seen pairs).map Prod.fst,
        seen.contains nm = false) := by
  intro pairs
  induction pairs with
  | nil => intro seen; simp [collectPairs]
  | cons p rest ih =>
      intro seen
      unfold collectPairs
      by_cases hcond : (!(seen.contains p.1) && flt p.1 p.2) = true
      · rw [if_pos hcond]
        obtain ⟨hnd, hseen⟩ := ih (p.1 :: seen)
        have hcond' := hcond
        rw [Bool.and_eq_true] at hcond'
        obtain ⟨hunseen, -⟩ := hcond'
        constructor
        · rw [List.map_cons, List.nodup_cons]
          constructor
          · intro hin
            have hc := hseen p.1 hin
            rw [List.contains_cons] at hc
            simp at hc
          · exact hnd
        · intro nm hin
          rw [List.map_cons] at hin
          rcases List.mem_cons.mp hin with he | hm
          · rw [he]
            simpa using hunseen
          · have hc := hseen nm hm
            rw [List.contains_cons, Bool.or_eq_false_iff] at hc
            exact hc.2
      · rw [if_neg hcond]
        obtain ⟨hnd, hseen⟩ := ih (p.1 :: seen)
        refine ⟨hnd, ?_⟩
        intro nm hm
        have hc := hseen nm hm
        rw [List.contains_cons, Bool.or_eq_false_iff] at hc
        exact hc.2

/-- When no member value is a class (so the recursive re-queue never
fires) and no identity is registered, `create_patches`' member processing
emits EXACTLY one patch per filter-accepted member, in member order,
against the parent's destination, and re-queues nothing. -/
theorem processMembers_noclass (flt : String → PyObj → Bool)
    (dd : Nat → Option DecData) (recursive : Bool) (dest : PyObj)
    (hdd : ∀ i, dd i = none) :
    ∀ ms : List (String × PyObj), (∀ m ∈ ms, isClass m.2 = false) →
      processMembers flt true dd recursive dest ms =
        ((ms.filter (fun m => flt m.1 m.2)).map
          (fun m => MPatch.mk dest m.1 m.2), []) := by
  intro ms
  induction ms with
  | nil => intro _; rfl
  | cons p rest ih =>
      intro hno
      have hrest := ih (fun m hm => hno m (List.mem_cons_of_mem p hm))
      have hhead : isClass p.2 = false := hno p (List.mem_cons_self p rest)
      unfold processMembers
      rw [hrest]
      by_cases hf : flt p.1 p.2 = true
      · have hpm : processMember flt true dd dest p.1 p.2 =
            some ⟨dest, p.1, p.2⟩ := by
          unfold processMember
          rw [get_decorator_data_none dd hdd]
          simp [hf]
        rw [hpm]
        simp only [hhead, Bool.and_false, Bool.false_eq_true, if_false]
        rw [List.filter_cons, if_pos hf, List.map_cons]
      · have hpm : processMember flt true dd dest p.1 p.2 = none := by
          unfold processMember
          rw [get_decorator_data_none dd hdd]
          simp [hf]
        rw [hpm]
        rw [List.filter_cons, if_neg hf]

/-- In a list with distinct names, filtering by a contained name keeps
exactly its single entry. -/
theorem filter_name_singleton (n : String) (v : PyObj) :
    ∀ ms : List (String × PyObj), (ms.map Prod.fst).Nodup →
      (n, v) ∈ ms → ms.filter (fun m => m.1 == n) = [(n, v)] := by
  intro ms
  induction ms with
  | nil => intro _ h; cases h
  | cons p rest ih =>
      intro hnd hmem
      rw [List.map_cons, List.nodup_cons] at hnd
      rcases List.mem_cons.mp hmem with he | hm
      · subst he
        rw [List.filter_cons, if_pos (by simp)]
        have hfil : rest.filter (fun m => m.1 == n) = [] := by
          rw [List.filter_eq_nil_iff]
          intro m hm2
          simp only [beq_iff_eq, decide_eq_true_eq]
          intro he2
          apply hnd.1
          have hin : Prod.fst m ∈ rest.map Prod.fst :=
            List.mem_map_of_mem Prod.fst hm2
          rw [he2] at hin
          exact hin
        rw [hfil]
      · have hne : ¬ ((p.1 == n) = true) := by
          simp only [beq_iff_eq]
          intro he2
          apply hnd.1
          rw [he2]
          exact List.mem_map_of_mem Prod.fst hm
        rw [List.filter_cons, if_neg hne]
        exact ih hnd.2 hm

/-- Filtering built patches by name commutes with building them: the
builder assigns each member's name verbatim. -/
theorem filter_map_name (D : PyObj) (n : String) :
    ∀ ms : List (String × PyObj),
      ((ms.map (fun m => MPatch.mk D m.1 m.2)).filter
        (fun q => q.name == n)) =
      (ms.filter (fun m => m.1 == n)).map
        (fun m => MPatch.mk D m.1 m.2) := by
  intro ms
  induction ms with
  | nil => rfl
  | cons m rest ih =>
      rw [List.map_cons, List.filter_cons, List.filter_cons]
      by_cases hp : (m.1 == n) = true
      · rw [if_pos hp, if_pos hp, List.map_cons, ih]
      · rw [if_neg hp, if_neg hp, ih]

/-- C8: with `traverse_bases` enabled and no registration data, build's
member enumeration over a template class MERGES the ancestry:
`(name, value)` is processed iff `value` is the most-derived definition of
`name` among the non-root layers — so less-derived duplicates are
deduplicated away and names defined only on the universal root bases never
appear — each name occurs at most once, and names are processed in sorted
order, making the output deterministic for a fixed input.  When no member
value is itself a class (composite values divert to the recursive
traversal, cf. the C7 theorem), the output is EXACTLY one patch per
filter-accepted member: the duplicated name yields the single patch
carrying its most-derived definition, and every emitted patch carries the
most-derived definition of its own name. -/
theorem build_mro_merge (mro : List (Bool × List (String × PyObj)))
    (n : String) (v : PyObj) (D : PyObj) (dd : Nat → Option DecData)
    (fuel : Nat) (hdd : ∀ i, dd i = none)
    (hdef : mostDerivedDef mro n = some v)
    (_hmult : 2 ≤ ((mro.filter (fun L => !L.1)).filter
      (fun L => (alookup L.2 n).isSome)).length)
    (hflt : default_filter n v = true)
    (hnoclass : ∀ m ∈ get_members (.cls mro) true none false 1,
      isClass m.2 = false) :
    (∀ (nm : String) (w : PyObj),
      (nm, w) ∈ get_members (.cls mro) true none false 1 ↔
        mostDerivedDef mro nm = some w) ∧
    ((get_members (.cls mro) true none false 1).map Prod.fst).Nodup ∧
    List.Pairwise (fun a b => strLe a.1 b.1 = true)
      (get_members (.cls mro) true none false 1) ∧
    create_patches D (.cls mro) true (some default_filter) true true dd
        (fuel + 1) =
      ((get_members (.cls mro) true none false 1).filter
        (fun m => default_filter m.1 m.2)).map
        (fun m => MPatch.mk D m.1 m.2) ∧
    (create_patches D (.cls mro) true (some default_filter) true true dd
        (fuel + 1)).filter (fun q => q.name == n) = [MPatch.mk D n v] ∧
    (∀ q ∈ create_patches D (.cls mro) true (some default_filter) true
        true dd (fuel + 1),
      q.destination = D ∧ mostDerivedDef mro q.name = some q.obj) := by
  have hiff : ∀ (nm : String) (w : PyObj),
      (nm, w) ∈ get_members (.cls mro) true none false 1 ↔
        mostDerivedDef mro nm = some w := by
    intro nm w
    rw [get_members_one]
    unfold sortMembers
    rw [List.mem_insertionSort, collectPairs_mem_iff]
    constructor
    · rintro ⟨ha, -, -⟩
      exact ha
    · intro h
      exact ⟨h, rfl, rfl⟩
  have hnd : ((get_members (.cls mro) true none false 1).map
      Prod.fst).Nodup := by
    rw [get_members_one]
    unfold sortMembers
    have hperm := (List.perm_insertionSort
      (fun a b : String × PyObj => strLe a.1 b.1 = true)
      (collectPairs ((none : Option (String → PyObj → Bool)).getD
        trueFilter) [] (rootsDicts (.cls mro) true).flatten)).map Prod.fst
    exact hperm.nodup_iff.mpr (collectPairs_names_nodup _ _ []).1
  have hsorted : List.Pairwise (fun a b => strLe a.1 b.1 = true)
      (get_members (.cls mro) true none false 1) := by
    rw [get_members_one]
    exact List.sorted_insertionSort _ _
  have hiv : create_patches D (.cls mro) true (some default_filter) true
      true dd (fuel + 1) =
      ((get_members (.cls mro) true none false 1).filter
        (fun m => default_filter m.1 m.2)).map
        (fun m => MPatch.mk D m.1 m.2) := by
    show (processMembers default_filter true dd true D
        (get_members (.cls mro) true none false 1)).1 ++
      create_patches_loop true default_filter true true dd fuel
        ([] ++ (processMembers default_filter true dd true D
          (get_members (.cls mro) true none false 1)).2) = _
    rw [processMembers_noclass default_filter dd true D hdd _ hnoclass]
    simp [create_patches_loop_nil]
  have hv : (create_patches D (.cls mro) true (some default_filter) true
      true dd (fuel + 1)).filter (fun q => q.name == n) =
      [MPatch.mk D n v] := by
    rw [hiv, filter_map_name]
    have hmem : (n, v) ∈ (get_members (.cls mro) true none false
        1).filter (fun m => default_filter m.1 m.2) :=
      List.mem_filter.mpr ⟨(hiff n v).mpr hdef, hflt⟩
    have hnd2 : (((get_members (.cls mro) true none false 1).filter
        (fun m => default_filter m.1 m.2)).map Prod.fst).Nodup :=
      List.Nodup.sublist ((List.filter_sublist _).map Prod.fst) hnd
    rw [filter_name_singleton n v _ hnd2 hmem]
    rfl
  have hvi : ∀ q ∈ create_patches D (.cls mro) true
      (some default_filter) true true dd (fuel + 1),
      q.destination = D ∧ mostDerivedDef mro q.name = some q.obj := by
    intro q hq
    rw [hiv] at hq
    obtain ⟨m, hm, hqe⟩ := List.mem_map.mp hq
    have hm2 := (List.mem_filter.mp hm).1
    have hmost := (hiff m.1 m.2).mp hm2
    constructor
    · rw [← hqe]
    · rw [← hqe]
      exact hmost
  exact ⟨hiff, hnd, hsorted, hiv, hv, hvi⟩

/-- C8 witness: a three-layer hierarchy in which `m` is defined by two
non-root layers and by a root layer; the output holds exactly one patch
for `m`, carrying the most-derived definition. -/
theorem build_mro_merge_witness :
    (create_patches (.inst []) (.cls [(false, [("m", .leaf 1)]),
        (false, [("m", .leaf 2)]), (true, [("m", .leaf 3)])]) true
        (some default_filter) true true (fun _ => none) 1).filter
      (fun q => q.name == "m") =
      [MPatch.mk (.inst []) "m" (.leaf 1)] := by
  have hnc : ∀ m ∈ get_members (.cls [(false, [("m", PyObj.leaf 1)]),
      (false, [("m", PyObj.leaf 2)]), (true, [("m", PyObj.leaf 3)])])
      true none false 1, isClass m.2 = false := by
    intro m hm
    have hm2 : m ∈ [(("m" : String), PyObj.leaf 1)] := hm
    have he := List.mem_singleton.mp hm2
    rw [he]
    rfl
  exact (build_mro_merge [(false, [("m", .leaf 1)]),
    (false, [("m", .leaf 2)]), (true, [("m", .leaf 3)])] "m" (.leaf 1)
    (.inst []) (fun _ => none) 0 (fun _ => rfl) rfl (by decide) rfl
    hnc).2.2.2.2.1

/-- C1 witness: the amended statement at concrete slots — a member holding 1
with two tagged applies, an absent member with a single apply/revert pair,
and an absent member with two applies and two reverts (which fails). -/
theorem stack_balance_amended_witness :
    (∃ s', revertSeq (applySeq [(Key.member "m", PyVal.vint 1)] "m"
        [(.vint 2, "x"), (.vint 3, "y")]) "m" 2 = .ok s' ∧
      getattr? s' (.member "m") = some (.vint 1)) ∧
    (∃ s', revertSeq (applySeq ([] : Attrs) "m" [(.vint 5, "t")]) "m" 1 =
        .ok s' ∧ getattr? s' (.member "m") = none) ∧
    revertSeq (applySeq ([] : Attrs) "m"
      [(.vint 5, "a"), (.vint 6, "b")]) "m" 2 = .error .notFound :=
  ⟨stack_balance_amended.1 [(Key.member "m", PyVal.vint 1)] "m"
      (.vint 1) [(.vint 2, "x"), (.vint 3, "y")] rfl rfl (Or.inl rfl),
    stack_balance_amended.2.1 [] "m" (.vint 5) "t" rfl,
    stack_balance_amended.2.2 [] "m" (.vint 5, "a") (.vint 6, "b") [] rfl⟩

end Kapuchin
